import Mathlib

/-!
Verification of the KVM hypervisor wrapper (src/hypervisor/src/kvm/mod.rs).

The Rust module is embedded shallowly:
  * machine integers are Nat, with an explicit bound check where the source
    uses u64 checked arithmetic;
  * the BTreeMap from slot id to mapping is an association list ordered by key;
  * the BinaryHeap of MemSlot values (whose Ord is inverted, src lines 119-135,
    so that the max-heap pop yields the numerically least slot) is a list whose
    pop operation removes the numerically least element;
  * every kernel ioctl is an oracle function from the request the code builds
    to an optional errno (none means the ioctl returned 0).
-/

/-- Errno-shaped errors used by the wrapper (libc constants imported at src line 23),
plus an `errno` constructor for an arbitrary errno produced by a failed kernel call. -/
inductive KvmError where
  | EOVERFLOW
  | ENOSPC
  | ENOENT
  | EFAULT
  | EINVAL
  | Eio
  | errno (n : Nat)
  deriving DecidableEq

/-- Flag bit for KVM_MEM_LOG_DIRTY_PAGES in the memory-region request bitmask. -/
def KVM_MEM_LOG_DIRTY_PAGES : Nat := 1

/-- Flag bit for KVM_MEM_READONLY in the memory-region request bitmask. -/
def KVM_MEM_READONLY : Nat := 2

/-- Modelled from the spec: one region of the guest memory description
(ordered, non-overlapping physical regions), carrying its guest physical base
address, its size in bytes and its host virtual base address.  The GuestMemory
type itself lives outside the provided sources. -/
structure GuestMemoryRegion where
  guest_addr : Nat
  size : Nat
  host_addr : Nat
  deriving DecidableEq

/-- Modelled from the spec: the guest memory description handed to KvmVm. -/
structure GuestMemory where
  regions : List GuestMemoryRegion
  deriving DecidableEq

/-- Modelled from the spec: number of fixed guest-memory regions. -/
def GuestMemory.num_regions (gm : GuestMemory) : Nat := gm.regions.length

/-- Modelled from the spec: whether the half-open range from start to stop
overlaps any fixed guest-memory region. -/
def GuestMemory.range_overlap (gm : GuestMemory) (start stop : Nat) : Bool :=
  gm.regions.any (fun r => r.guest_addr < stop && start < r.guest_addr + r.size)

/-- A host memory mapping handed to add_memory_region (the MappedRegion trait
object): only its size and its host pointer are observable to this module. -/
structure MappedRegion where
  size : Nat
  ptr : Nat
  deriving DecidableEq

/-- The kvm_userspace_memory_region request struct built at src lines 56-62. -/
structure kvm_userspace_memory_region where
  slot : Nat
  flags : Nat
  guest_phys_addr : Nat
  memory_size : Nat
  userspace_addr : Nat
  deriving DecidableEq

/-- The request that set_user_memory_region (src lines 43-70) hands to the
KVM_SET_USER_MEMORY_REGION ioctl. -/
def set_user_memory_region_req (slot : Nat) (read_only log_dirty_pages : Bool)
    (guest_addr memory_size userspace_addr : Nat) : kvm_userspace_memory_region :=
  let flags0 : Nat := if read_only then KVM_MEM_READONLY else 0
  let flags : Nat := if log_dirty_pages then flags0 ||| KVM_MEM_LOG_DIRTY_PAGES else flags0
  { slot := slot, flags := flags, guest_phys_addr := guest_addr,
    memory_size := memory_size, userspace_addr := userspace_addr }

/-- Kernel oracle: the outcome of the KVM_SET_USER_MEMORY_REGION ioctl for a
given request (none means success, some e means the errno_result was e). -/
abbrev Kern := kvm_userspace_memory_region → Option KvmError

/-- GuestAddress.checked_add on u64 (src line 324). -/
def u64_checked_add (a b : Nat) : Option Nat :=
  if a + b < 2 ^ 64 then some (a + b) else none

/-- The KvmVm state (src lines 138-143): the guest memory description, the
BTreeMap from slot id to owned mapping, and the heap of freed slot ids. -/
structure KvmVm where
  guest_mem : GuestMemory
  mem_regions : List (Nat × MappedRegion)
  mem_slot_gaps : List Nat
  deriving DecidableEq

/-- BTreeMap.contains_key on the association list. -/
def mapContains (m : List (Nat × MappedRegion)) (k : Nat) : Bool :=
  m.any (fun p => p.1 == k)

/-- BTreeMap.insert on the key-ordered association list (replaces an existing
binding for the key, otherwise inserts in key order). -/
def mapInsert (m : List (Nat × MappedRegion)) (k : Nat) (v : MappedRegion) :
    List (Nat × MappedRegion) :=
  match m with
  | [] => [(k, v)]
  | p :: rest =>
    if k < p.1 then (k, v) :: p :: rest
    else if k = p.1 then (k, v) :: rest
    else p :: mapInsert rest k v

/-- BTreeMap.remove on the association list. -/
def mapRemove (m : List (Nat × MappedRegion)) (k : Nat) : List (Nat × MappedRegion) :=
  match m with
  | [] => []
  | p :: rest => if k = p.1 then rest else p :: mapRemove rest k

/-- BinaryHeap.pop on the gaps heap.  The source stores MemSlot values whose
Ord is inverted (src lines 123-129), so the max-heap pop returns the
numerically least slot id; this model returns that least element together
with the remaining elements. -/
def heapPop : List Nat → Option (Nat × List Nat)
  | [] => none
  | x :: xs =>
    match heapPop xs with
    | none => some (x, [])
    | some (m, rest) => if x ≤ m then some (x, xs) else some (m, x :: rest)

/-- The slot id chosen by add_memory_region (src lines 330-333): the popped
least free id when the gaps heap is non-empty, else
mem_regions.len() + guest_mem.num_regions(). -/
def chosenSlot (vm : KvmVm) : Nat :=
  match heapPop vm.mem_slot_gaps with
  | some (g, _) => g
  | none => vm.mem_regions.length + vm.guest_mem.num_regions

/-- The gaps heap after the pop performed by add_memory_region. -/
def gapsAfterPop (vm : KvmVm) : List Nat :=
  match heapPop vm.mem_slot_gaps with
  | some (_, rest) => rest
  | none => vm.mem_slot_gaps

/-- The memory-region request add_memory_region builds (src lines 339-349). -/
def addReq (vm : KvmVm) (guest_addr : Nat) (mem : MappedRegion)
    (read_only log_dirty_pages : Bool) : kvm_userspace_memory_region :=
  set_user_memory_region_req (chosenSlot vm) read_only log_dirty_pages
    guest_addr mem.size mem.ptr

/-- Vm::add_memory_region for KvmVm (src lines 316-357).  Returns the Result,
the successor state, and the list of kernel requests issued. -/
def add_memory_region (vm : KvmVm) (kern : Kern) (guest_addr : Nat)
    (mem : MappedRegion) (read_only log_dirty_pages : Bool) :
    Except KvmError Nat × KvmVm × List kvm_userspace_memory_region :=
  match u64_checked_add guest_addr mem.size with
  | none => (.error .EOVERFLOW, vm, [])
  | some end_addr =>
    if vm.guest_mem.range_overlap guest_addr end_addr then
      (.error .ENOSPC, vm, [])
    else
      let slot := chosenSlot vm
      let req := addReq vm guest_addr mem read_only log_dirty_pages
      match kern req with
      | some e => (.error e, { vm with mem_slot_gaps := slot :: gapsAfterPop vm }, [req])
      | none =>
        (.ok slot,
         { vm with mem_regions := mapInsert vm.mem_regions slot mem,
                   mem_slot_gaps := gapsAfterPop vm },
         [req])

/-- The zero-clearing request remove_memory_region issues (src line 378). -/
def clearReq (slot : Nat) : kvm_userspace_memory_region :=
  set_user_memory_region_req slot false false 0 0 0

/-- Vm::remove_memory_region for KvmVm (src lines 371-383).  Returns the
Result, the successor state, and the list of kernel requests issued. -/
def remove_memory_region (vm : KvmVm) (kern : Kern) (slot : Nat) :
    Except KvmError Unit × KvmVm × List kvm_userspace_memory_region :=
  if mapContains vm.mem_regions slot then
    match kern (clearReq slot) with
    | some e => (.error e, vm, [clearReq slot])
    | none =>
      (.ok (),
       { vm with mem_slot_gaps := slot :: vm.mem_slot_gaps,
                 mem_regions := mapRemove vm.mem_regions slot },
       [clearReq slot])
  else
    (.error .ENOENT, vm, [])

/-- The sequence of registration requests KvmVm::new issues for the fixed
guest-memory regions (src lines 156-169): slot id equals the region index,
read-only off, dirty-page logging off. -/
def baseRegionReqs (rs : List GuestMemoryRegion) (idx : Nat) :
    List kvm_userspace_memory_region :=
  match rs with
  | [] => []
  | r :: rest =>
    set_user_memory_region_req idx false false r.guest_addr r.size r.host_addr
      :: baseRegionReqs rest (idx + 1)

/-- Modelled from the spec: GuestMemory.with_regions (not among the provided
sources) calls the callback on each region in order together with its index,
stopping at the first failure; partial registration is not rolled back.
Returns the registration outcome and the requests actually issued. -/
def registerBaseRegions (kern : Kern) (rs : List GuestMemoryRegion) (idx : Nat) :
    Except KvmError Unit × List kvm_userspace_memory_region :=
  match rs with
  | [] => (.ok (), [])
  | r :: rest =>
    match kern (set_user_memory_region_req idx false false r.guest_addr r.size r.host_addr) with
    | some e =>
      (.error e, [set_user_memory_region_req idx false false r.guest_addr r.size r.host_addr])
    | none =>
      ((registerBaseRegions kern rest (idx + 1)).1,
       set_user_memory_region_req idx false false r.guest_addr r.size r.host_addr
         :: (registerBaseRegions kern rest (idx + 1)).2)

/-- KvmVm::new (src lines 147-177): create the kernel VM object (outcome
createErr of the KVM_CREATE_VM ioctl), then register every fixed guest-memory
region; on success the state starts with an empty slot map and an empty gaps
heap.  Returns the Result and the memory-region requests issued. -/
def KvmVm.new (createErr : Option KvmError) (kern : Kern) (guest_mem : GuestMemory) :
    Except KvmError KvmVm × List kvm_userspace_memory_region :=
  match createErr with
  | some e => (.error e, [])
  | none =>
    match registerBaseRegions kern guest_mem.regions 0 with
    | (.error e, log) => (.error e, log)
    | (.ok _, log) =>
      (.ok { guest_mem := guest_mem, mem_regions := [], mem_slot_gaps := [] }, log)

/-- The portable capability enum (crate root), restricted to the variants the
translation at src lines 483-495 matches on. -/
inductive HypervisorCap where
  | ArmPmuV3
  | ImmediateExit
  | S390UserSigp
  | TscDeadlineTimer
  | UserMemory
  deriving DecidableEq

/-- The platform capability enum kvm::Cap, restricted to the translated values. -/
inductive KvmCap where
  | ArmPmuV3
  | ImmediateExit
  | S390UserSigp
  | TscDeadlineTimer
  | UserMemory
  deriving DecidableEq

/-- TryFrom for HypervisorCap to KvmCap (src lines 483-495). -/
def KvmCap.try_from : HypervisorCap → Except KvmError KvmCap
  | .ArmPmuV3 => .ok .ArmPmuV3
  | .ImmediateExit => .ok .ImmediateExit
  | .S390UserSigp => .ok .S390UserSigp
  | .TscDeadlineTimer => .ok .TscDeadlineTimer
  | .UserMemory => .ok .UserMemory

/-- Hypervisor::check_capability for Kvm (src lines 107-116): ext is the
KVM_CHECK_EXTENSION kernel query for a platform capability. -/
def Kvm.check_capability (ext : KvmCap → Bool) (cap : HypervisorCap) : Bool :=
  match KvmCap.try_from cap with
  | .ok kvm_cap => ext kvm_cap
  | .error _ => false

/-- KVM_IRQ_ROUTING_IRQCHIP discriminant of the routing-entry union. -/
def KVM_IRQ_ROUTING_IRQCHIP : Nat := 1

/-- KVM_IRQ_ROUTING_MSI discriminant of the routing-entry union. -/
def KVM_IRQ_ROUTING_MSI : Nat := 2

/-- Modelled from the spec: the source of an interrupt route, either an
in-kernel interrupt-controller identifier with a pin number, or a
message-signaled address (u64) with its data payload.  The IrqSource type is
declared in the crate root, outside the provided sources. -/
inductive IrqSource where
  | Irqchip (chip : Nat) (pin : Nat)
  | Msi (address : Nat) (data : Nat)
  deriving DecidableEq

/-- Modelled from the spec: a route binds a global system interrupt number to
a source. -/
structure IrqRoute where
  gsi : Nat
  source : IrqSource
  deriving DecidableEq

/-- The tagged union inside kvm_irq_routing_entry; zero is the
zero-initialized union of a freshly allocated entry. -/
inductive KvmIrqRoutingU where
  | irqchip (irqchip : Nat) (pin : Nat)
  | msi (address_lo address_hi data pad : Nat)
  | zero
  deriving DecidableEq

/-- One kernel routing-table entry. -/
structure kvm_irq_routing_entry where
  gsi : Nat
  type_ : Nat
  u : KvmIrqRoutingU
  deriving DecidableEq

/-- The zero-initialized entry vec_with_array_field starts from. -/
def zeroRoutingEntry : kvm_irq_routing_entry := { gsi := 0, type_ := 0, u := .zero }

/-- From (a reference to) IrqRoute for kvm_irq_routing_entry (src lines
497-526).  chipMap is the architecture-specific chip_to_kvm_chip translation
(declared in the per-architecture submodule, outside the provided sources);
the modulo operations are the u32 casts of the MSI address halves. -/
def kvm_irq_routing_entry.from_route (chipMap : Nat → Nat) (item : IrqRoute) :
    kvm_irq_routing_entry :=
  match item.source with
  | .Irqchip chip pin =>
    { gsi := item.gsi, type_ := KVM_IRQ_ROUTING_IRQCHIP,
      u := .irqchip (chipMap chip) pin }
  | .Msi address data =>
    { gsi := item.gsi, type_ := KVM_IRQ_ROUTING_MSI,
      u := .msi (address % 2 ^ 32) (address / 2 ^ 32 % 2 ^ 32) data 0 }

/-- The kvm_irq_routing header with its variable-length trailing entry array. -/
structure kvm_irq_routing where
  nr : Nat
  entries : List kvm_irq_routing_entry
  deriving DecidableEq

/-- The zip-based fill loop of set_gsi_routing (src lines 271-274): writes
converted routes over the zero-initialized buffer, stopping when either side
is exhausted (iterator zip semantics). -/
def fillRoutingEntries (chipMap : Nat → Nat) :
    List IrqRoute → List kvm_irq_routing_entry → List kvm_irq_routing_entry
  | _, [] => []
  | [], es => es
  | r :: rs, _ :: es =>
    kvm_irq_routing_entry.from_route chipMap r :: fillRoutingEntries chipMap rs es

/-- The routing table set_gsi_routing builds (src lines 264-276): a buffer
whose trailing array is allocated with routes.len() zeroed entries
(vec_with_array_field), whose nr field is set to routes.len(), and whose
entries are filled by zipping the input routes with the buffer. -/
def set_gsi_routing_table (chipMap : Nat → Nat) (routes : List IrqRoute) :
    kvm_irq_routing :=
  { nr := routes.length,
    entries := fillRoutingEntries chipMap routes
      (List.replicate routes.length zeroRoutingEntry) }

/-- KvmVcpu (src line 435): the fieldless constructed vCPU handle. -/
structure KvmVcpu where
  deriving DecidableEq

/-- RunnableKvmVcpu (src lines 453-459), minus the PhantomData marker field
whose only role is to remove the Send auto-trait. -/
structure RunnableKvmVcpu where
  vcpu : KvmVcpu
  deriving DecidableEq

/-- The vCPU exit reason; the stub run loop only ever produces Unknown. -/
inductive VcpuExit where
  | Unknown
  deriving DecidableEq

/-- Vcpu::to_runnable for KvmVcpu (src lines 440-445). -/
def KvmVcpu.to_runnable (v : KvmVcpu) : Except KvmError RunnableKvmVcpu :=
  .ok { vcpu := v }

/-- Vcpu::request_interrupt_window for KvmVcpu (src lines 447-449): issues no
kernel call (the kernel oracle is not even consulted). -/
def KvmVcpu.request_interrupt_window (_v : KvmVcpu) : Except KvmError Unit := .ok ()

/-- RunnableVcpu::run for RunnableKvmVcpu (src lines 464-466). -/
def RunnableKvmVcpu.run (_v : RunnableKvmVcpu) : Except KvmError VcpuExit :=
  .ok .Unknown

/-- The slot ids currently bound in the mem_regions map. -/
def activeKeys (vm : KvmVm) : List Nat := vm.mem_regions.map Prod.fst

/-- The number of fixed guest-memory regions, whose kernel slots 0..N are
occupied from VM creation on. -/
def numFixed (vm : KvmVm) : Nat := vm.guest_mem.num_regions

/-- A slot id is active when it backs a fixed guest-memory region or is a key
of the mem_regions map. -/
def slotIsActive (vm : KvmVm) (s : Nat) : Prop :=
  s < numFixed vm ∨ s ∈ activeKeys vm

instance (vm : KvmVm) (s : Nat) : Decidable (slotIsActive vm s) := by
  unfold slotIsActive; infer_instance

/-- The contiguous block of slot ids ever handed out: the fixed base slots
are 0..numFixed and the dynamically allocated ids continue from there. -/
def allocatedSlots (vm : KvmVm) : List Nat :=
  List.range' (numFixed vm) (vm.mem_regions.length + vm.mem_slot_gaps.length)

/-- The slot bookkeeping invariant: the active keys and the free pool
together are a permutation of the contiguous id range that starts right
after the fixed guest-memory slots. -/
def SlotInv (vm : KvmVm) : Prop :=
  List.Perm (activeKeys vm ++ vm.mem_slot_gaps) (allocatedSlots vm)

/-- States reachable through the public mutating interface: a freshly created
VM (the state KvmVm.new yields on success) followed by any sequence of
add_memory_region / remove_memory_region calls with arbitrary arguments and
arbitrary kernel outcomes. -/
inductive Reachable : KvmVm → Prop where
  | init (gm : GuestMemory) :
      Reachable { guest_mem := gm, mem_regions := [], mem_slot_gaps := [] }
  | add (vm : KvmVm) (kern : Kern) (addr : Nat) (mem : MappedRegion) (ro ld : Bool) :
      Reachable vm → Reachable (add_memory_region vm kern addr mem ro ld).2.1
  | remove (vm : KvmVm) (kern : Kern) (slot : Nat) :
      Reachable vm → Reachable (remove_memory_region vm kern slot).2.1

/-! ### Concrete scenario (the worked example of the spec): a VM over the two
fixed guest regions holding 0x1000 bytes at 0 and 0x5000 bytes at 0x5000,
with an always-accepting kernel and an always-failing kernel. -/

/-- Kernel oracle that accepts every request. -/
def kernAlwaysOk : Kern := fun _ => none

/-- Kernel oracle that rejects every request with Eio. -/
def kernFailEio : Kern := fun _ => some .Eio

/-- The two fixed guest-memory regions of the worked scenario. -/
def gmW : GuestMemory :=
  { regions := [{ guest_addr := 0, size := 0x1000, host_addr := 0x7f0000 },
                { guest_addr := 0x5000, size := 0x5000, host_addr := 0x7f8000 }] }

/-- A 0x1000-byte host mapping used by the scenario. -/
def memW : MappedRegion := { size := 0x1000, ptr := 0x9000000 }

/-- The scenario state right after KvmVm::new. -/
def vmW0 : KvmVm := { guest_mem := gmW, mem_regions := [], mem_slot_gaps := [] }

/-- The scenario state after adding a region at 0x1000 (slot 2). -/
def vmW1 : KvmVm := (add_memory_region vmW0 kernAlwaysOk 0x1000 memW false false).2.1

/-- The scenario state after also adding a region at 0x10000 (slot 3). -/
def vmW2 : KvmVm := (add_memory_region vmW1 kernAlwaysOk 0x10000 memW false false).2.1

/-- The scenario state after removing slot 2 (free pool holds 2). -/
def vmW3 : KvmVm := (remove_memory_region vmW2 kernAlwaysOk 2).2.1

/-- A two-route list exercising both source variants of the routing table. -/
def routesW : List IrqRoute :=
  [{ gsi := 5, source := .Irqchip 0 3 }, { gsi := 33, source := .Msi 0xfee00000 42 }]

/-! ### Helper lemmas on the heap and map models -/

theorem heapPop_eq_none {l : List Nat} (h : heapPop l = none) : l = [] := by
  cases l with
  | nil => rfl
  | cons x xs =>
    exfalso
    unfold heapPop at h
    cases hx : heapPop xs with
    | none => rw [hx] at h; simp at h
    | some p =>
      rw [hx] at h
      cases p with
      | mk m rest => by_cases hle : x ≤ m <;> simp [hle] at h

theorem heapPop_perm :
    ∀ {l : List Nat} {g : Nat} {rest : List Nat},
      heapPop l = some (g, rest) → List.Perm l (g :: rest) := by
  intro l
  induction l with
  | nil => intro g rest h; simp [heapPop] at h
  | cons x xs ih =>
    intro g rest h
    unfold heapPop at h
    cases hx : heapPop xs with
    | none =>
      rw [hx] at h
      simp only [Option.some.injEq, Prod.mk.injEq] at h
      obtain ⟨hg, hrest⟩ := h
      subst hg; subst hrest
      rw [heapPop_eq_none hx]
    | some p =>
      rw [hx] at h
      cases p with
      | mk m rest0 =>
        by_cases hle : x ≤ m
        · simp only [hle, if_pos, Option.some.injEq, Prod.mk.injEq] at h
          obtain ⟨hg, hrest⟩ := h
          subst hg; subst hrest
          exact List.Perm.refl _
        · simp only [hle, if_neg, not_false_iff, Option.some.injEq, Prod.mk.injEq] at h
          obtain ⟨hg, hrest⟩ := h
          subst hg; subst hrest
          exact ((ih hx).cons x).trans (List.Perm.swap m x rest0)

theorem heapPop_min :
    ∀ {l : List Nat} {g : Nat} {rest : List Nat},
      heapPop l = some (g, rest) → ∀ y ∈ l, g ≤ y := by
  intro l
  induction l with
  | nil => intro g rest h; simp [heapPop] at h
  | cons x xs ih =>
    intro g rest h y hy
    unfold heapPop at h
    cases hx : heapPop xs with
    | none =>
      rw [hx] at h
      simp only [Option.some.injEq, Prod.mk.injEq] at h
      obtain ⟨hg, _⟩ := h
      subst hg
      have hxs := heapPop_eq_none hx
      subst hxs
      have hyx : y = x := by simpa using hy
      omega
    | some p =>
      rw [hx] at h
      cases p with
      | mk m rest0 =>
        by_cases hle : x ≤ m
        · simp only [hle, if_pos, Option.some.injEq, Prod.mk.injEq] at h
          obtain ⟨hg, _⟩ := h
          subst hg
          rcases List.mem_cons.mp hy with hy | hy
          · omega
          · exact le_trans hle (ih hx y hy)
        · simp only [hle, if_neg, not_false_iff, Option.some.injEq, Prod.mk.injEq] at h
          obtain ⟨hg, _⟩ := h
          subst hg
          rcases List.mem_cons.mp hy with hy | hy
          · omega
          · exact ih hx y hy

theorem mapContains_iff (m : List (Nat × MappedRegion)) (k : Nat) :
    mapContains m k = true ↔ k ∈ m.map Prod.fst := by
  unfold mapContains
  simp only [List.any_eq_true, beq_iff_eq, List.mem_map]

theorem mapInsert_keys_perm :
    ∀ (m : List (Nat × MappedRegion)) (k : Nat) (v : MappedRegion),
      k ∉ m.map Prod.fst →
      List.Perm ((mapInsert m k v).map Prod.fst) (k :: m.map Prod.fst) := by
  intro m
  induction m with
  | nil => intro k v _; simp [mapInsert]
  | cons p rest ih =>
    intro k v hk
    simp only [List.map_cons, List.mem_cons] at hk
    push_neg at hk
    obtain ⟨hk1, hk2⟩ := hk
    unfold mapInsert
    by_cases h1 : k < p.1
    · simp [h1]
    · rw [if_neg h1, if_neg hk1]
      simp only [List.map_cons]
      exact ((ih k v hk2).cons p.1).trans (List.Perm.swap k p.1 (rest.map Prod.fst))

theorem mapInsert_length (m : List (Nat × MappedRegion)) (k : Nat) (v : MappedRegion)
    (hk : k ∉ m.map Prod.fst) : (mapInsert m k v).length = m.length + 1 := by
  have h := (mapInsert_keys_perm m k v hk).length_eq
  simpa using h

theorem mapRemove_keys :
    ∀ (m : List (Nat × MappedRegion)) (k : Nat),
      (mapRemove m k).map Prod.fst = (m.map Prod.fst).erase k := by
  intro m
  induction m with
  | nil => intro k; simp [mapRemove]
  | cons p rest ih =>
    intro k
    unfold mapRemove
    by_cases h : k = p.1
    · simp [h, List.erase_cons]
    · have hne : (p.1 == k) = false := by
        simp only [beq_eq_false_iff_ne, ne_eq]
        intro hc; exact h hc.symm
      simp [h, List.erase_cons, hne, ih]

theorem mapRemove_length (m : List (Nat × MappedRegion)) (k : Nat)
    (hk : k ∈ m.map Prod.fst) : (mapRemove m k).length + 1 = m.length := by
  have h1 : ((mapRemove m k).map Prod.fst).length = ((m.map Prod.fst).erase k).length := by
    rw [mapRemove_keys]
  have h2 := List.length_erase_of_mem hk
  have h3 : (m.map Prod.fst).length = m.length := List.length_map m Prod.fst
  have h4 : ((mapRemove m k).map Prod.fst).length = (mapRemove m k).length :=
    List.length_map _ _
  have h5 : 0 < m.length := by
    cases m with
    | nil => simp at hk
    | cons a l => simp
  omega

/-! ### Case-analysis rewrite lemmas for the two mutating operations -/

theorem add_eq_overflow (vm : KvmVm) (kern : Kern) (addr : Nat) (mem : MappedRegion)
    (ro ld : Bool) (h : u64_checked_add addr mem.size = none) :
    add_memory_region vm kern addr mem ro ld = (.error .EOVERFLOW, vm, []) := by
  unfold add_memory_region
  rw [h]

theorem add_eq_overlap (vm : KvmVm) (kern : Kern) (addr : Nat) (mem : MappedRegion)
    (ro ld : Bool) (e : Nat) (h : u64_checked_add addr mem.size = some e)
    (hov : vm.guest_mem.range_overlap addr e = true) :
    add_memory_region vm kern addr mem ro ld = (.error .ENOSPC, vm, []) := by
  unfold add_memory_region
  rw [h]
  simp [hov]

theorem add_eq_kern_fail (vm : KvmVm) (kern : Kern) (addr : Nat) (mem : MappedRegion)
    (ro ld : Bool) (e : Nat) (err : KvmError)
    (h : u64_checked_add addr mem.size = some e)
    (hov : vm.guest_mem.range_overlap addr e = false)
    (hk : kern (addReq vm addr mem ro ld) = some err) :
    add_memory_region vm kern addr mem ro ld =
      (.error err, { vm with mem_slot_gaps := chosenSlot vm :: gapsAfterPop vm },
       [addReq vm addr mem ro ld]) := by
  unfold add_memory_region
  rw [h]
  simp [hov, hk]

theorem add_eq_kern_ok (vm : KvmVm) (kern : Kern) (addr : Nat) (mem : MappedRegion)
    (ro ld : Bool) (e : Nat)
    (h : u64_checked_add addr mem.size = some e)
    (hov : vm.guest_mem.range_overlap addr e = false)
    (hk : kern (addReq vm addr mem ro ld) = none) :
    add_memory_region vm kern addr mem ro ld =
      (.ok (chosenSlot vm),
       { vm with mem_regions := mapInsert vm.mem_regions (chosenSlot vm) mem,
                 mem_slot_gaps := gapsAfterPop vm },
       [addReq vm addr mem ro ld]) := by
  unfold add_memory_region
  rw [h]
  simp [hov, hk]

theorem remove_eq_not_found (vm : KvmVm) (kern : Kern) (slot : Nat)
    (h : mapContains vm.mem_regions slot = false) :
    remove_memory_region vm kern slot = (.error .ENOENT, vm, []) := by
  unfold remove_memory_region
  simp [h]

theorem remove_eq_kern_fail (vm : KvmVm) (kern : Kern) (slot : Nat) (err : KvmError)
    (h : mapContains vm.mem_regions slot = true)
    (hk : kern (clearReq slot) = some err) :
    remove_memory_region vm kern slot = (.error err, vm, [clearReq slot]) := by
  unfold remove_memory_region
  simp [h, hk]

theorem remove_eq_kern_ok (vm : KvmVm) (kern : Kern) (slot : Nat)
    (h : mapContains vm.mem_regions slot = true)
    (hk : kern (clearReq slot) = none) :
    remove_memory_region vm kern slot =
      (.ok (),
       { vm with mem_slot_gaps := slot :: vm.mem_slot_gaps,
                 mem_regions := mapRemove vm.mem_regions slot },
       [clearReq slot]) := by
  unfold remove_memory_region
  simp [h, hk]

/-! ### The slot bookkeeping invariant and its preservation -/

theorem activeKeys_length (vm : KvmVm) :
    (activeKeys vm).length = vm.mem_regions.length :=
  List.length_map _ _

theorem slotInv_nodup (vm : KvmVm) (hinv : SlotInv vm) :
    (activeKeys vm ++ vm.mem_slot_gaps).Nodup :=
  hinv.symm.nodup (List.nodup_range' _ _)

theorem slotInv_mem_iff (vm : KvmVm) (hinv : SlotInv vm) (s : Nat) :
    s ∈ activeKeys vm ++ vm.mem_slot_gaps ↔
      numFixed vm ≤ s ∧
        s < numFixed vm + (vm.mem_regions.length + vm.mem_slot_gaps.length) := by
  rw [hinv.mem_iff]
  unfold allocatedSlots
  exact List.mem_range'_1

theorem chosenSlot_pop (vm : KvmVm) (g : Nat) (rest : List Nat)
    (hpop : heapPop vm.mem_slot_gaps = some (g, rest)) :
    chosenSlot vm = g ∧ gapsAfterPop vm = rest := by
  unfold chosenSlot gapsAfterPop
  rw [hpop]
  exact ⟨rfl, rfl⟩

theorem chosenSlot_mint (vm : KvmVm) (hpop : heapPop vm.mem_slot_gaps = none) :
    chosenSlot vm = vm.mem_regions.length + vm.guest_mem.num_regions ∧
      gapsAfterPop vm = vm.mem_slot_gaps := by
  unfold chosenSlot gapsAfterPop
  rw [hpop]
  exact ⟨rfl, rfl⟩

theorem chosenSlot_not_mem_keys (vm : KvmVm) (hinv : SlotInv vm) :
    chosenSlot vm ∉ activeKeys vm := by
  cases hpop : heapPop vm.mem_slot_gaps with
  | some p =>
    obtain ⟨g, rest⟩ := p
    rw [(chosenSlot_pop vm g rest hpop).1]
    have hgmem : g ∈ vm.mem_slot_gaps :=
      (heapPop_perm hpop).mem_iff.mpr (List.mem_cons_self g rest)
    have hdisj := List.disjoint_of_nodup_append (slotInv_nodup vm hinv)
    intro hK
    exact hdisj hK hgmem
  | none =>
    have hnil := heapPop_eq_none hpop
    rw [(chosenSlot_mint vm hpop).1]
    intro hK
    have hmem := (slotInv_mem_iff vm hinv _).mp (List.mem_append_left _ hK)
    have hNf : numFixed vm = vm.guest_mem.num_regions := rfl
    rw [hNf, hnil] at hmem
    simp only [List.length_nil] at hmem
    omega

theorem slotInv_push_back (vm : KvmVm) (hinv : SlotInv vm) :
    SlotInv { vm with mem_slot_gaps := chosenSlot vm :: gapsAfterPop vm } := by
  show List.Perm (activeKeys vm ++ (chosenSlot vm :: gapsAfterPop vm))
    (List.range' (numFixed vm)
      (vm.mem_regions.length + (chosenSlot vm :: gapsAfterPop vm).length))
  cases hpop : heapPop vm.mem_slot_gaps with
  | some p =>
    obtain ⟨g, rest⟩ := p
    obtain ⟨hc, hr⟩ := chosenSlot_pop vm g rest hpop
    rw [hc, hr]
    have hperm := heapPop_perm hpop
    have hlen : vm.mem_slot_gaps.length = (g :: rest).length := hperm.length_eq
    rw [← hlen]
    exact (hperm.symm.append_left _).trans hinv
  | none =>
    have hnil := heapPop_eq_none hpop
    obtain ⟨hc, hr⟩ := chosenSlot_mint vm hpop
    rw [hc, hr, hnil]
    have hinv2 : List.Perm (activeKeys vm ++ vm.mem_slot_gaps)
        (List.range' (numFixed vm)
          (vm.mem_regions.length + vm.mem_slot_gaps.length)) := hinv
    rw [hnil] at hinv2
    simp only [List.append_nil, List.length_nil, Nat.add_zero] at hinv2
    have hcomm : vm.mem_regions.length + vm.guest_mem.num_regions
        = numFixed vm + vm.mem_regions.length := by
      unfold numFixed; omega
    rw [hcomm]
    simp only [List.length_cons, List.length_nil]
    rw [List.range'_1_concat]
    refine List.Perm.trans ?_ (List.perm_append_singleton _ _).symm
    exact List.Perm.trans (List.perm_append_singleton _ _) (hinv2.cons _)

theorem slotInv_insert (vm : KvmVm) (mem : MappedRegion) (hinv : SlotInv vm) :
    SlotInv { vm with
              mem_regions := mapInsert vm.mem_regions (chosenSlot vm) mem,
              mem_slot_gaps := gapsAfterPop vm } := by
  have hnotmem : chosenSlot vm ∉ activeKeys vm := chosenSlot_not_mem_keys vm hinv
  have hkeys := mapInsert_keys_perm vm.mem_regions (chosenSlot vm) mem hnotmem
  have hlenins := mapInsert_length vm.mem_regions (chosenSlot vm) mem hnotmem
  show List.Perm ((mapInsert vm.mem_regions (chosenSlot vm) mem).map Prod.fst
      ++ gapsAfterPop vm)
    (List.range' (numFixed vm)
      ((mapInsert vm.mem_regions (chosenSlot vm) mem).length + (gapsAfterPop vm).length))
  rw [hlenins]
  cases hpop : heapPop vm.mem_slot_gaps with
  | some p =>
    obtain ⟨g, rest⟩ := p
    obtain ⟨hc, hr⟩ := chosenSlot_pop vm g rest hpop
    rw [hc] at hkeys
    rw [hc, hr]
    have hperm := heapPop_perm hpop
    have hlen : vm.mem_slot_gaps.length = rest.length + 1 := by
      simpa using hperm.length_eq
    have hidx : vm.mem_regions.length + 1 + rest.length
        = vm.mem_regions.length + vm.mem_slot_gaps.length := by omega
    rw [hidx]
    refine List.Perm.trans (hkeys.append_right _) ?_
    refine List.Perm.trans List.perm_middle.symm ?_
    exact List.Perm.trans (hperm.symm.append_left _) hinv
  | none =>
    have hnil := heapPop_eq_none hpop
    obtain ⟨hc, hr⟩ := chosenSlot_mint vm hpop
    rw [hc] at hkeys
    rw [hc, hr, hnil]
    have hinv2 : List.Perm (activeKeys vm ++ vm.mem_slot_gaps)
        (List.range' (numFixed vm)
          (vm.mem_regions.length + vm.mem_slot_gaps.length)) := hinv
    rw [hnil] at hinv2
    simp only [List.append_nil, List.length_nil, Nat.add_zero] at hinv2 ⊢
    rw [List.range'_1_concat, Nat.add_comm (numFixed vm) vm.mem_regions.length]
    refine List.Perm.trans hkeys ?_
    refine List.Perm.trans ?_ (List.perm_append_singleton _ _).symm
    exact hinv2.cons _

theorem slotInv_add (vm : KvmVm) (kern : Kern) (addr : Nat) (mem : MappedRegion)
    (ro ld : Bool) (hinv : SlotInv vm) :
    SlotInv (add_memory_region vm kern addr mem ro ld).2.1 := by
  cases hca : u64_checked_add addr mem.size with
  | none => rw [add_eq_overflow vm kern addr mem ro ld hca]; exact hinv
  | some e =>
    cases hov : vm.guest_mem.range_overlap addr e with
    | true => rw [add_eq_overlap vm kern addr mem ro ld e hca hov]; exact hinv
    | false =>
      cases hk : kern (addReq vm addr mem ro ld) with
      | some err =>
        rw [add_eq_kern_fail vm kern addr mem ro ld e err hca hov hk]
        exact slotInv_push_back vm hinv
      | none =>
        rw [add_eq_kern_ok vm kern addr mem ro ld e hca hov hk]
        exact slotInv_insert vm mem hinv

theorem slotInv_remove (vm : KvmVm) (kern : Kern) (slot : Nat) (hinv : SlotInv vm) :
    SlotInv (remove_memory_region vm kern slot).2.1 := by
  cases hc : mapContains vm.mem_regions slot with
  | false => rw [remove_eq_not_found vm kern slot hc]; exact hinv
  | true =>
    cases hk : kern (clearReq slot) with
    | some err => rw [remove_eq_kern_fail vm kern slot err hc hk]; exact hinv
    | none =>
      rw [remove_eq_kern_ok vm kern slot hc hk]
      have hmem : slot ∈ activeKeys vm := (mapContains_iff _ _).mp hc
      show List.Perm ((mapRemove vm.mem_regions slot).map Prod.fst
          ++ (slot :: vm.mem_slot_gaps))
        (List.range' (numFixed vm)
          ((mapRemove vm.mem_regions slot).length + (slot :: vm.mem_slot_gaps).length))
      have hkeys : (mapRemove vm.mem_regions slot).map Prod.fst
          = (activeKeys vm).erase slot := mapRemove_keys _ _
      have hlen := mapRemove_length vm.mem_regions slot hmem
      have hidx : (mapRemove vm.mem_regions slot).length + (slot :: vm.mem_slot_gaps).length
          = vm.mem_regions.length + vm.mem_slot_gaps.length := by
        simp only [List.length_cons]; omega
      rw [hkeys, hidx]
      refine List.Perm.trans List.perm_middle ?_
      have hstep : List.Perm ((slot :: (activeKeys vm).erase slot) ++ vm.mem_slot_gaps)
          (activeKeys vm ++ vm.mem_slot_gaps) :=
        (List.perm_cons_erase hmem).symm.append_right _
      exact List.Perm.trans hstep hinv

theorem slotInv_init (gm : GuestMemory) :
    SlotInv { guest_mem := gm, mem_regions := [], mem_slot_gaps := [] } := by
  unfold SlotInv allocatedSlots activeKeys
  simp

theorem reachable_slotInv (vm : KvmVm) (h : Reachable vm) : SlotInv vm := by
  induction h with
  | init gm => exact slotInv_init gm
  | add vm kern addr mem ro ld h ih => exact slotInv_add vm kern addr mem ro ld ih
  | remove vm kern slot h ih => exact slotInv_remove vm kern slot ih

theorem numFixed_le_chosenSlot (vm : KvmVm) (hinv : SlotInv vm) :
    numFixed vm ≤ chosenSlot vm := by
  cases hpop : heapPop vm.mem_slot_gaps with
  | some p =>
    obtain ⟨g, rest⟩ := p
    rw [(chosenSlot_pop vm g rest hpop).1]
    have hg : g ∈ vm.mem_slot_gaps :=
      (heapPop_perm hpop).mem_iff.mpr (List.mem_cons_self g rest)
    exact ((slotInv_mem_iff vm hinv g).mp (List.mem_append_right _ hg)).1
  | none =>
    rw [(chosenSlot_mint vm hpop).1]
    have hNf : numFixed vm = vm.guest_mem.num_regions := rfl
    omega

theorem chosenSlot_min (vm : KvmVm) (hinv : SlotInv vm) :
    ∀ m, ¬ slotIsActive vm m → chosenSlot vm ≤ m := by
  intro m hm
  unfold slotIsActive at hm
  push_neg at hm
  obtain ⟨hmN, hmK⟩ := hm
  cases hpop : heapPop vm.mem_slot_gaps with
  | some p =>
    obtain ⟨g, rest⟩ := p
    rw [(chosenSlot_pop vm g rest hpop).1]
    by_cases hmG : m ∈ vm.mem_slot_gaps
    · exact heapPop_min hpop m hmG
    · have hnotin : m ∉ activeKeys vm ++ vm.mem_slot_gaps := by
        intro hx
        rcases List.mem_append.mp hx with hx | hx
        · exact hmK hx
        · exact hmG hx
      have hmrange : ¬ (numFixed vm ≤ m ∧
          m < numFixed vm + (vm.mem_regions.length + vm.mem_slot_gaps.length)) :=
        fun hc => hnotin ((slotInv_mem_iff vm hinv m).mpr hc)
      have hg : g ∈ vm.mem_slot_gaps :=
        (heapPop_perm hpop).mem_iff.mpr (List.mem_cons_self g rest)
      have hgr := (slotInv_mem_iff vm hinv g).mp (List.mem_append_right _ hg)
      omega
  | none =>
    rw [(chosenSlot_mint vm hpop).1]
    have hnil := heapPop_eq_none hpop
    have hnotin : m ∉ activeKeys vm ++ vm.mem_slot_gaps := by
      rw [hnil]
      simpa using hmK
    have hmrange : ¬ (numFixed vm ≤ m ∧
        m < numFixed vm + (vm.mem_regions.length + vm.mem_slot_gaps.length)) :=
      fun hc => hnotin ((slotInv_mem_iff vm hinv m).mpr hc)
    have h0 : vm.mem_slot_gaps.length = 0 := by rw [hnil]; rfl
    have hNf : numFixed vm = vm.guest_mem.num_regions := rfl
    omega

theorem add_ok_slot (vm : KvmVm) (kern : Kern) (addr : Nat) (mem : MappedRegion)
    (ro ld : Bool) (slot : Nat)
    (hok : (add_memory_region vm kern addr mem ro ld).1 = .ok slot) :
    slot = chosenSlot vm := by
  cases hca : u64_checked_add addr mem.size with
  | none =>
    rw [add_eq_overflow vm kern addr mem ro ld hca] at hok
    simp at hok
  | some e =>
    cases hov : vm.guest_mem.range_overlap addr e with
    | true =>
      rw [add_eq_overlap vm kern addr mem ro ld e hca hov] at hok
      simp at hok
    | false =>
      cases hk : kern (addReq vm addr mem ro ld) with
      | some err =>
        rw [add_eq_kern_fail vm kern addr mem ro ld e err hca hov hk] at hok
        simp at hok
      | none =>
        rw [add_eq_kern_ok vm kern addr mem ro ld e hca hov hk] at hok
        simp only [Except.ok.injEq] at hok
        exact hok.symm

/-- C1: on every state reachable by a sequence of add_memory_region and
remove_memory_region calls from a fresh VM, a successful add_memory_region
returns the smallest slot id that is not currently active (neither a fixed
guest-memory slot nor a key of the mem_regions map): when the free pool
mem_slot_gaps is non-empty the returned id is the popped numerically
smallest freed id, otherwise it is the never-used id
mem_regions.len() + guest_mem.num_regions(); hence a freed id is always
reused before a new id is minted. -/
theorem add_memory_region_returns_least_inactive_slot
    (vm : KvmVm) (kern : Kern) (addr : Nat) (mem : MappedRegion) (ro ld : Bool)
    (slot : Nat) (hreach : Reachable vm)
    (hok : (add_memory_region vm kern addr mem ro ld).1 = .ok slot) :
    (¬ slotIsActive vm slot ∧ ∀ m, ¬ slotIsActive vm m → slot ≤ m)
    ∧ (∀ g rest, heapPop vm.mem_slot_gaps = some (g, rest) →
        slot = g ∧ ∀ y ∈ vm.mem_slot_gaps, slot ≤ y)
    ∧ (heapPop vm.mem_slot_gaps = none →
        vm.mem_slot_gaps = [] ∧
          slot = vm.mem_regions.length + vm.guest_mem.num_regions) := by
  have hinv := reachable_slotInv vm hreach
  have hslot := add_ok_slot vm kern addr mem ro ld slot hok
  subst hslot
  refine ⟨⟨?_, chosenSlot_min vm hinv⟩, ?_, ?_⟩
  · intro hact
    cases hact with
    | inl hlt =>
      have := numFixed_le_chosenSlot vm hinv
      omega
    | inr hK => exact chosenSlot_not_mem_keys vm hinv hK
  · intro g rest hpop
    refine ⟨(chosenSlot_pop vm g rest hpop).1, ?_⟩
    rw [(chosenSlot_pop vm g rest hpop).1]
    exact heapPop_min hpop
  · intro hpop
    exact ⟨heapPop_eq_none hpop, (chosenSlot_mint vm hpop).1⟩

theorem allocatedSlots_mono_add (vm : KvmVm) (hinv : SlotInv vm) (kern : Kern)
    (addr : Nat) (mem : MappedRegion) (ro ld : Bool) :
    allocatedSlots vm ⊆ allocatedSlots (add_memory_region vm kern addr mem ro ld).2.1 := by
  cases hca : u64_checked_add addr mem.size with
  | none =>
    rw [add_eq_overflow vm kern addr mem ro ld hca]
    exact fun x h => h
  | some e =>
    cases hov : vm.guest_mem.range_overlap addr e with
    | true =>
      rw [add_eq_overlap vm kern addr mem ro ld e hca hov]
      exact fun x h => h
    | false =>
      cases hk : kern (addReq vm addr mem ro ld) with
      | some err =>
        rw [add_eq_kern_fail vm kern addr mem ro ld e err hca hov hk]
        show List.range' (numFixed vm) (vm.mem_regions.length + vm.mem_slot_gaps.length)
          ⊆ List.range' (numFixed vm)
            (vm.mem_regions.length + (chosenSlot vm :: gapsAfterPop vm).length)
        apply List.range'_subset_right_1.mpr
        cases hpop : heapPop vm.mem_slot_gaps with
        | some p =>
          obtain ⟨g, rest⟩ := p
          rw [(chosenSlot_pop vm g rest hpop).2]
          have hlen : vm.mem_slot_gaps.length = rest.length + 1 := by
            simpa using (heapPop_perm hpop).length_eq
          simp only [List.length_cons]
          omega
        | none =>
          rw [(chosenSlot_mint vm hpop).2]
          simp only [List.length_cons]
          omega
      | none =>
        rw [add_eq_kern_ok vm kern addr mem ro ld e hca hov hk]
        show List.range' (numFixed vm) (vm.mem_regions.length + vm.mem_slot_gaps.length)
          ⊆ List.range' (numFixed vm)
            ((mapInsert vm.mem_regions (chosenSlot vm) mem).length + (gapsAfterPop vm).length)
        apply List.range'_subset_right_1.mpr
        have hnotmem : chosenSlot vm ∉ vm.mem_regions.map Prod.fst :=
          chosenSlot_not_mem_keys vm hinv
        have hlenins := mapInsert_length vm.mem_regions (chosenSlot vm) mem hnotmem
        rw [hlenins]
        cases hpop : heapPop vm.mem_slot_gaps with
        | some p =>
          obtain ⟨g, rest⟩ := p
          rw [(chosenSlot_pop vm g rest hpop).2]
          have hlen : vm.mem_slot_gaps.length = rest.length + 1 := by
            simpa using (heapPop_perm hpop).length_eq
          omega
        | none =>
          rw [(chosenSlot_mint vm hpop).2]
          omega

theorem allocatedSlots_mono_remove (vm : KvmVm) (kern : Kern) (slot : Nat) :
    allocatedSlots vm ⊆ allocatedSlots (remove_memory_region vm kern slot).2.1 := by
  cases hc : mapContains vm.mem_regions slot with
  | false =>
    rw [remove_eq_not_found vm kern slot hc]
    exact fun x h => h
  | true =>
    cases hk : kern (clearReq slot) with
    | some err =>
      rw [remove_eq_kern_fail vm kern slot err hc hk]
      exact fun x h => h
    | none =>
      rw [remove_eq_kern_ok vm kern slot hc hk]
      show List.range' (numFixed vm) (vm.mem_regions.length + vm.mem_slot_gaps.length)
        ⊆ List.range' (numFixed vm)
          ((mapRemove vm.mem_regions slot).length + (slot :: vm.mem_slot_gaps).length)
      apply List.range'_subset_right_1.mpr
      have hmem : slot ∈ vm.mem_regions.map Prod.fst := (mapContains_iff _ _).mp hc
      have hlen := mapRemove_length vm.mem_regions slot hmem
      simp only [List.length_cons]
      omega

/-- C8: on every reachable state of the VM context, a slot id is never
simultaneously active (a key of mem_regions) and free (in mem_slot_gaps);
the block of ids ever allocated is exactly the active keys together with
the free pool (so an allocated id is never in neither); and neither
add_memory_region nor remove_memory_region ever shrinks the allocated block,
on their success or error paths alike. -/
theorem slot_ids_partition_invariant (vm : KvmVm) (hreach : Reachable vm) :
    (∀ s, ¬ (s ∈ activeKeys vm ∧ s ∈ vm.mem_slot_gaps))
    ∧ (∀ s, s ∈ allocatedSlots vm ↔ (s ∈ activeKeys vm ∨ s ∈ vm.mem_slot_gaps))
    ∧ (∀ kern addr mem ro ld, ∀ s ∈ allocatedSlots vm,
        s ∈ allocatedSlots (add_memory_region vm kern addr mem ro ld).2.1)
    ∧ (∀ kern slot, ∀ s ∈ allocatedSlots vm,
        s ∈ allocatedSlots (remove_memory_region vm kern slot).2.1) := by
  have hinv := reachable_slotInv vm hreach
  refine ⟨?_, ?_, ?_, ?_⟩
  · intro s hs
    exact List.disjoint_of_nodup_append (slotInv_nodup vm hinv) hs.1 hs.2
  · intro s
    rw [← hinv.mem_iff, List.mem_append]
  · intro kern addr mem ro ld s hs
    exact allocatedSlots_mono_add vm hinv kern addr mem ro ld hs
  · intro kern slot s hs
    exact allocatedSlots_mono_remove vm kern slot hs

/-! ### Remaining claim theorems -/

/-- C3: remove_memory_region on an inactive slot fails with ENOENT and
leaves the slot map, the free pool, and the kernel untouched; on an active
slot, with the kernel accepting, it issues exactly one request that clears
the kernel slot (zero guest address, zero size), pushes the slot id into the
free pool, and removes (drops) the owned mapping from the map. -/
theorem remove_memory_region_spec (vm : KvmVm) (kern : Kern) (slot : Nat) :
    (mapContains vm.mem_regions slot = false →
      remove_memory_region vm kern slot = (.error .ENOENT, vm, []))
    ∧ (mapContains vm.mem_regions slot = true → kern (clearReq slot) = none →
      remove_memory_region vm kern slot =
        (.ok (),
         { vm with mem_slot_gaps := slot :: vm.mem_slot_gaps,
                   mem_regions := mapRemove vm.mem_regions slot },
         [clearReq slot]))
    ∧ (clearReq slot).guest_phys_addr = 0 ∧ (clearReq slot).memory_size = 0 :=
  ⟨remove_eq_not_found vm kern slot, remove_eq_kern_ok vm kern slot, rfl, rfl⟩

/-- C4: once the overflow and fixed-region overlap checks pass, a kernel
failure inside add_memory_region pushes the taken slot id back into the free
pool, propagates the kernel error unchanged, and adds no entry to the slot
map; on kernel success the mapping is recorded in the map keyed by the
chosen slot id and that id is returned. -/
theorem add_memory_region_no_slot_leak
    (vm : KvmVm) (kern : Kern) (addr : Nat) (mem : MappedRegion) (ro ld : Bool)
    (hfit : addr + mem.size < 2 ^ 64)
    (hov : vm.guest_mem.range_overlap addr (addr + mem.size) = false) :
    (∀ e, kern (addReq vm addr mem ro ld) = some e →
      add_memory_region vm kern addr mem ro ld =
        (.error e, { vm with mem_slot_gaps := chosenSlot vm :: gapsAfterPop vm },
         [addReq vm addr mem ro ld])
      ∧ chosenSlot vm ∈ (add_memory_region vm kern addr mem ro ld).2.1.mem_slot_gaps
      ∧ (add_memory_region vm kern addr mem ro ld).2.1.mem_regions = vm.mem_regions)
    ∧ (kern (addReq vm addr mem ro ld) = none →
      add_memory_region vm kern addr mem ro ld =
        (.ok (chosenSlot vm),
         { vm with mem_regions := mapInsert vm.mem_regions (chosenSlot vm) mem,
                   mem_slot_gaps := gapsAfterPop vm },
         [addReq vm addr mem ro ld])) := by
  have hca : u64_checked_add addr mem.size = some (addr + mem.size) := by
    unfold u64_checked_add
    rw [if_pos hfit]
  constructor
  · intro e hk
    have heq := add_eq_kern_fail vm kern addr mem ro ld (addr + mem.size) e hca hov hk
    refine ⟨heq, ?_, ?_⟩
    · rw [heq]
      exact List.mem_cons_self _ _
    · rw [heq]
  · intro hk
    exact add_eq_kern_ok vm kern addr mem ro ld (addr + mem.size) hca hov hk

/-- C2 (amended): adding a region whose guest range (which must not overflow
u64) overlaps a fixed guest-memory region fails with the capacity error
ENOSPC and leaves the slot map and the free pool untouched, with no slot
consumed, no mapping recorded and no kernel request issued.  Overlap with
previously added (non-fixed) regions is not checked by add_memory_region. -/
theorem add_memory_region_fixed_overlap_rejected
    (vm : KvmVm) (kern : Kern) (addr : Nat) (mem : MappedRegion) (ro ld : Bool)
    (hfit : addr + mem.size < 2 ^ 64)
    (hov : vm.guest_mem.range_overlap addr (addr + mem.size) = true) :
    add_memory_region vm kern addr mem ro ld = (.error .ENOSPC, vm, []) := by
  have hca : u64_checked_add addr mem.size = some (addr + mem.size) := by
    unfold u64_checked_add
    rw [if_pos hfit]
  exact add_eq_overlap vm kern addr mem ro ld (addr + mem.size) hca hov

/-- C6: the portable-to-platform capability translation is exhaustive (it
never fails on any portable capability), so Kvm::check_capability, whose
Bool result cannot carry an error, always returns the kernel extension
query on the translated capability; its translation-failure branch, which
would return false instead of erroring, is never taken. -/
theorem check_capability_translation_total (ext : KvmCap → Bool) (cap : HypervisorCap) :
    ∃ k, KvmCap.try_from cap = .ok k ∧ Kvm.check_capability ext cap = ext k := by
  cases cap
  all_goals exact ⟨_, rfl, rfl⟩

/-- C10: the vCPU lifecycle stubs are total: to_runnable always returns Ok
wrapping the vCPU, request_interrupt_window always returns Ok(()) without
consulting any kernel oracle, and run always returns Ok(VcpuExit::Unknown). -/
theorem vcpu_lifecycle_total (v : KvmVcpu) (r : RunnableKvmVcpu) :
    KvmVcpu.to_runnable v = .ok { vcpu := v }
    ∧ KvmVcpu.request_interrupt_window v = .ok ()
    ∧ RunnableKvmVcpu.run r = .ok .Unknown :=
  ⟨rfl, rfl, rfl⟩


theorem baseRegionReqs_length (rs : List GuestMemoryRegion) (idx : Nat) :
    (baseRegionReqs rs idx).length = rs.length := by
  induction rs generalizing idx with
  | nil => rfl
  | cons r rest ih => simp [baseRegionReqs, ih]

theorem baseRegionReqs_get :
    ∀ (rs : List GuestMemoryRegion) (idx i : Nat) (r : GuestMemoryRegion),
      rs[i]? = some r →
      (baseRegionReqs rs idx)[i]? =
        some (set_user_memory_region_req (idx + i) false false
          r.guest_addr r.size r.host_addr) := by
  intro rs
  induction rs with
  | nil => intro idx i r h; simp at h
  | cons a rest ih =>
    intro idx i r h
    cases i with
    | zero =>
      rw [List.getElem?_cons_zero] at h
      injection h with h
      subst h
      simp [baseRegionReqs]
    | succ n =>
      rw [List.getElem?_cons_succ] at h
      have hrec := ih (idx + 1) n r h
      have harith : idx + 1 + n = idx + (n + 1) := by omega
      rw [harith] at hrec
      simpa [baseRegionReqs] using hrec

theorem registerBaseRegions_cons_fail (kern : Kern) (r : GuestMemoryRegion)
    (rest : List GuestMemoryRegion) (idx : Nat) (e : KvmError)
    (hk : kern (set_user_memory_region_req idx false false
      r.guest_addr r.size r.host_addr) = some e) :
    registerBaseRegions kern (r :: rest) idx =
      (.error e,
       [set_user_memory_region_req idx false false r.guest_addr r.size r.host_addr]) := by
  simp only [registerBaseRegions]
  rw [hk]

theorem registerBaseRegions_cons_ok (kern : Kern) (r : GuestMemoryRegion)
    (rest : List GuestMemoryRegion) (idx : Nat)
    (hk : kern (set_user_memory_region_req idx false false
      r.guest_addr r.size r.host_addr) = none) :
    registerBaseRegions kern (r :: rest) idx =
      ((registerBaseRegions kern rest (idx + 1)).1,
       set_user_memory_region_req idx false false r.guest_addr r.size r.host_addr
         :: (registerBaseRegions kern rest (idx + 1)).2) := by
  simp only [registerBaseRegions]
  rw [hk]

theorem registerBaseRegions_all_ok (kern : Kern) :
    ∀ (rs : List GuestMemoryRegion) (idx : Nat),
      (∀ req ∈ baseRegionReqs rs idx, kern req = none) →
      registerBaseRegions kern rs idx = (.ok (), baseRegionReqs rs idx) := by
  intro rs
  induction rs with
  | nil => intro idx _; rfl
  | cons r rest ih =>
    intro idx h
    have hr : kern (set_user_memory_region_req idx false false
        r.guest_addr r.size r.host_addr) = none :=
      h _ (List.mem_cons_self _ _)
    rw [registerBaseRegions_cons_ok kern r rest idx hr,
      ih (idx + 1) (fun req hreq => h req (List.mem_cons_of_mem _ hreq))]
    simp [baseRegionReqs]

theorem registerBaseRegions_ok_all (kern : Kern) :
    ∀ (rs : List GuestMemoryRegion) (idx : Nat),
      (registerBaseRegions kern rs idx).1 = .ok () →
      ∀ req ∈ baseRegionReqs rs idx, kern req = none := by
  intro rs
  induction rs with
  | nil => intro idx _ req hreq; simp [baseRegionReqs] at hreq
  | cons r rest ih =>
    intro idx h req hreq
    cases hk : kern (set_user_memory_region_req idx false false
        r.guest_addr r.size r.host_addr) with
    | some e =>
      rw [registerBaseRegions_cons_fail kern r rest idx e hk] at h
      simp at h
    | none =>
      rw [registerBaseRegions_cons_ok kern r rest idx hk] at h
      rcases List.mem_cons.mp hreq with hreq | hreq
      · subst hreq; exact hk
      · exact ih (idx + 1) h req hreq

/-- C5: KvmVm::new fails when kernel VM creation fails; when creation
succeeds it registers every fixed guest-memory region in order, the i-th
region under slot id i with flags 0 (read-only off, dirty-page logging off);
it returns the fresh VM state exactly when every registration is accepted,
and fails whenever any registration fails. -/
theorem kvm_vm_new_registers_base_regions
    (createErr : Option KvmError) (kern : Kern) (gm : GuestMemory) :
    (∀ e, createErr = some e → KvmVm.new createErr kern gm = (.error e, []))
    ∧ ((∀ req ∈ baseRegionReqs gm.regions 0, kern req = none) →
        KvmVm.new none kern gm =
          (.ok { guest_mem := gm, mem_regions := [], mem_slot_gaps := [] },
           baseRegionReqs gm.regions 0))
    ∧ (∀ vm log, KvmVm.new none kern gm = (.ok vm, log) →
        ∀ req ∈ baseRegionReqs gm.regions 0, kern req = none)
    ∧ (baseRegionReqs gm.regions 0).length = gm.regions.length
    ∧ (∀ i r, gm.regions[i]? = some r →
        (baseRegionReqs gm.regions 0)[i]? =
          some ({ slot := i, flags := 0, guest_phys_addr := r.guest_addr,
                  memory_size := r.size, userspace_addr := r.host_addr }
            : kvm_userspace_memory_region)) := by
  refine ⟨?_, ?_, ?_, baseRegionReqs_length gm.regions 0, ?_⟩
  · intro e he
    subst he
    rfl
  · intro h
    simp only [KvmVm.new]
    rw [registerBaseRegions_all_ok kern gm.regions 0 h]
  · intro vm log h req hreq
    refine registerBaseRegions_ok_all kern gm.regions 0 ?_ req hreq
    cases hreg : registerBaseRegions kern gm.regions 0 with
    | mk res rlog =>
      cases res with
      | error e =>
        exfalso
        have hne : KvmVm.new none kern gm = (.error e, rlog) := by
          simp only [KvmVm.new]
          rw [hreg]
        rw [hne] at h
        simp at h
      | ok u => rfl
  · intro i r h
    have hrec := baseRegionReqs_get gm.regions 0 i r h
    simpa using hrec

theorem fillRoutingEntries_length (chipMap : Nat → Nat) :
    ∀ (rs : List IrqRoute) (es : List kvm_irq_routing_entry),
      (fillRoutingEntries chipMap rs es).length = es.length := by
  intro rs
  induction rs with
  | nil => intro es; cases es <;> rfl
  | cons r rest ih =>
    intro es
    cases es with
    | nil => rfl
    | cons e es2 => simp [fillRoutingEntries, ih]

theorem fillRoutingEntries_get (chipMap : Nat → Nat) :
    ∀ (rs : List IrqRoute) (es : List kvm_irq_routing_entry) (i : Nat) (r : IrqRoute),
      rs[i]? = some r → i < es.length →
      (fillRoutingEntries chipMap rs es)[i]? =
        some (kvm_irq_routing_entry.from_route chipMap r) := by
  intro rs
  induction rs with
  | nil => intro es i r h _; simp at h
  | cons a rest ih =>
    intro es i r h hlt
    cases es with
    | nil => simp at hlt
    | cons e es2 =>
      cases i with
      | zero =>
        rw [List.getElem?_cons_zero] at h
        injection h with h
        subst h
        simp [fillRoutingEntries]
      | succ n =>
        rw [List.getElem?_cons_succ] at h
        have hrec := ih es2 n r h (by simpa using hlt)
        simpa [fillRoutingEntries] using hrec

/-- C7: for any route list of length N, set_gsi_routing builds a table whose
count field equals N, whose trailing entry array holds exactly N entries,
and whose i-th entry is the conversion of the i-th route: it carries that
route's gsi and, per source variant, the IRQCHIP discriminant with the
translated chip and pin, or the MSI discriminant with the split address
halves and the data payload. -/
theorem set_gsi_routing_table_layout (chipMap : Nat → Nat) (routes : List IrqRoute) :
    (set_gsi_routing_table chipMap routes).nr = routes.length
    ∧ (set_gsi_routing_table chipMap routes).entries.length = routes.length
    ∧ (∀ (i : Nat) (r : IrqRoute), routes[i]? = some r →
        (set_gsi_routing_table chipMap routes).entries[i]? =
          some (kvm_irq_routing_entry.from_route chipMap r))
    ∧ (∀ gsi chip pin,
        kvm_irq_routing_entry.from_route chipMap { gsi := gsi, source := .Irqchip chip pin } =
          { gsi := gsi, type_ := KVM_IRQ_ROUTING_IRQCHIP,
            u := .irqchip (chipMap chip) pin })
    ∧ (∀ gsi address data,
        kvm_irq_routing_entry.from_route chipMap { gsi := gsi, source := .Msi address data } =
          { gsi := gsi, type_ := KVM_IRQ_ROUTING_MSI,
            u := .msi (address % 2 ^ 32) (address / 2 ^ 32 % 2 ^ 32) data 0 }) := by
  refine ⟨rfl, ?_, ?_, fun gsi chip pin => rfl, fun gsi address data => rfl⟩
  · simp only [set_gsi_routing_table]
    rw [fillRoutingEntries_length, List.length_replicate]
  · intro i r h
    simp only [set_gsi_routing_table]
    refine fillRoutingEntries_get chipMap routes _ i r h ?_
    rw [List.length_replicate]
    exact (List.getElem?_eq_some_iff.mp h).1

/-! ### Concrete scenario facts and per-claim witnesses -/

theorem reachW3 : Reachable vmW3 :=
  Reachable.remove vmW2 kernAlwaysOk 2
    (Reachable.add vmW1 kernAlwaysOk 0x10000 memW false false
      (Reachable.add vmW0 kernAlwaysOk 0x1000 memW false false (Reachable.init gmW)))

/-- C2 counterexample: after adding a region covering 0x1000..0x2000 at slot
2, a second add_memory_region whose range 0x1800..0x2800 overlaps that
previously added region (but no fixed guest-memory region) does not fail:
it succeeds with slot 3 and records the overlapping mapping, because
add_memory_region only checks overlap against the fixed guest memory. -/
theorem add_overlapping_added_region_not_rejected :
    vmW1.mem_regions = [(2, memW)]
    ∧ memW.size = 0x1000
    ∧ (0x1000 < 0x1800 + 0x1000 ∧ 0x1800 < 0x1000 + 0x1000)
    ∧ (add_memory_region vmW1 kernAlwaysOk 0x1800 memW false false).1 = .ok 3
    ∧ (add_memory_region vmW1 kernAlwaysOk 0x1800 memW false false).2.1.mem_regions
        = [(2, memW), (3, memW)] :=
  ⟨rfl, rfl, by omega, rfl, rfl⟩

theorem add_memory_region_returns_least_inactive_slot_witness :
    (¬ slotIsActive vmW3 2 ∧ ∀ m, ¬ slotIsActive vmW3 m → 2 ≤ m)
    ∧ (∀ g rest, heapPop vmW3.mem_slot_gaps = some (g, rest) →
        2 = g ∧ ∀ y ∈ vmW3.mem_slot_gaps, 2 ≤ y)
    ∧ (heapPop vmW3.mem_slot_gaps = none →
        vmW3.mem_slot_gaps = [] ∧
          2 = vmW3.mem_regions.length + vmW3.guest_mem.num_regions) :=
  add_memory_region_returns_least_inactive_slot vmW3 kernAlwaysOk 0x2000 memW false false 2
    reachW3 rfl

theorem slot_ids_partition_invariant_witness :
    (∀ s, ¬ (s ∈ activeKeys vmW3 ∧ s ∈ vmW3.mem_slot_gaps))
    ∧ (∀ s, s ∈ allocatedSlots vmW3 ↔ (s ∈ activeKeys vmW3 ∨ s ∈ vmW3.mem_slot_gaps))
    ∧ (∀ kern addr mem ro ld, ∀ s ∈ allocatedSlots vmW3,
        s ∈ allocatedSlots (add_memory_region vmW3 kern addr mem ro ld).2.1)
    ∧ (∀ kern slot, ∀ s ∈ allocatedSlots vmW3,
        s ∈ allocatedSlots (remove_memory_region vmW3 kern slot).2.1) :=
  slot_ids_partition_invariant vmW3 reachW3

theorem add_memory_region_fixed_overlap_rejected_witness :
    add_memory_region vmW0 kernAlwaysOk 0x800 memW false false
      = (.error .ENOSPC, vmW0, []) :=
  add_memory_region_fixed_overlap_rejected vmW0 kernAlwaysOk 0x800 memW false false
    (by decide) rfl

theorem remove_memory_region_spec_witness :
    remove_memory_region vmW1 kernAlwaysOk 5 = (.error .ENOENT, vmW1, [])
    ∧ remove_memory_region vmW1 kernAlwaysOk 2 =
        (.ok (),
         { vmW1 with mem_slot_gaps := 2 :: vmW1.mem_slot_gaps,
                     mem_regions := mapRemove vmW1.mem_regions 2 },
         [clearReq 2]) :=
  ⟨(remove_memory_region_spec vmW1 kernAlwaysOk 5).1 rfl,
   (remove_memory_region_spec vmW1 kernAlwaysOk 2).2.1 rfl rfl⟩

theorem add_memory_region_no_slot_leak_witness :
    add_memory_region vmW0 kernFailEio 0x1000 memW false false =
      (.error .Eio, { vmW0 with mem_slot_gaps := chosenSlot vmW0 :: gapsAfterPop vmW0 },
       [addReq vmW0 0x1000 memW false false])
    ∧ add_memory_region vmW0 kernAlwaysOk 0x1000 memW false false =
      (.ok (chosenSlot vmW0),
       { vmW0 with mem_regions := mapInsert vmW0.mem_regions (chosenSlot vmW0) memW,
                   mem_slot_gaps := gapsAfterPop vmW0 },
       [addReq vmW0 0x1000 memW false false]) :=
  ⟨((add_memory_region_no_slot_leak vmW0 kernFailEio 0x1000 memW false false
      (by decide) rfl).1 .Eio rfl).1,
   (add_memory_region_no_slot_leak vmW0 kernAlwaysOk 0x1000 memW false false
      (by decide) rfl).2 rfl⟩

theorem kvm_vm_new_registers_base_regions_witness :
    KvmVm.new none kernAlwaysOk gmW =
      (.ok { guest_mem := gmW, mem_regions := [], mem_slot_gaps := [] },
       baseRegionReqs gmW.regions 0)
    ∧ KvmVm.new (some .Eio) kernAlwaysOk gmW = (.error .Eio, []) :=
  ⟨(kvm_vm_new_registers_base_regions none kernAlwaysOk gmW).2.1 (fun _ _ => rfl),
   (kvm_vm_new_registers_base_regions (some .Eio) kernAlwaysOk gmW).1 .Eio rfl⟩

theorem set_gsi_routing_table_layout_witness :
    (set_gsi_routing_table id routesW).nr = routesW.length
    ∧ (set_gsi_routing_table id routesW).entries[1]? =
        some (kvm_irq_routing_entry.from_route id
          { gsi := 33, source := .Msi 0xfee00000 42 }) :=
  ⟨(set_gsi_routing_table_layout id routesW).1,
   (set_gsi_routing_table_layout id routesW).2.2.1 1
     { gsi := 33, source := .Msi 0xfee00000 42 } rfl⟩
